import Mathlib

/-!
# Verification of the pyacq OpenBCI acquisition node

Shallow embedding of pyacq/devices/eeg_openBCI.py: the frame decoder
(OpenBCIThread.decode), the acquisition loop (OpenBCIThread.run), thread
construction (OpenBCIThread.__init__) and device configuration
(OpenBCI._configure).

Bytes are modelled as natural numbers (struct.unpack('B') values, 0..255);
the serial byte stream is a finite list of such bytes.  The numpy row
buffers chan_values / aux_values are lists of wide signed integers (Int).
Fallible operations (Python struct.error on a short slice) are modelled
with Option.
-/

namespace PyacqOpenBCI

/-- start of data packet: _START_BYTE = 0xA0 -/
def _START_BYTE : Nat := 0xA0

/-- end of data packet: _END_BYTE = 0xC0 -/
def _END_BYTE : Nat := 0xC0

/-- struct.unpack('>i', 4 bytes): reinterpret 4 bytes as a big-endian signed
32-bit integer, returned as a wide signed integer. -/
def int32be (b0 b1 b2 b3 : Nat) : Int :=
  let u : Nat := ((b0 * 256 + b1) * 256 + b2) * 256 + b3
  if u < 2 ^ 31 then (u : Int) else (u : Int) - 2 ^ 32

/-- struct.unpack('>h', 2 bytes): reinterpret 2 bytes as a big-endian signed
16-bit integer. -/
def int16be (b0 b1 : Nat) : Int :=
  let u : Nat := b0 * 256 + b1
  if u < 2 ^ 15 then (u : Int) else (u : Int) - 2 ^ 16

/-- One 3-byte channel field of OpenBCIThread.decode: prepend 0xFF when the
first byte is >= 127, else 0x00, and reinterpret the 4 bytes big-endian
signed ('>i'). -/
def decodeChan3 (b0 b1 b2 : Nat) : Int :=
  if 127 ≤ b0 then int32be 0xFF b0 b1 b2 else int32be 0x00 b0 b1 b2

/-- Python slice data[start : start+len]. -/
def sliceBytes (data : List Nat) (start len : Nat) : List Nat :=
  (data.drop start).take len

/-- The channel loop of OpenBCIThread.decode: for ii in range(nb_channel),
take data[jj:jj+3] (struct.error, i.e. none, when the slice is short),
store the decoded value into the row buffer at column ii, advance jj by 3. -/
def decodeChansFrom (data : List Nat) : Nat → Nat → Nat → List Int → Option (List Int)
  | _, _, 0, buf => some buf
  | jj, ii, k + 1, buf =>
    match sliceBytes data jj 3 with
    | [b0, b1, b2] => decodeChansFrom data (jj + 3) (ii + 1) k (buf.set ii (decodeChan3 b0 b1 b2))
    | _ => none

/-- The aux loop of OpenBCIThread.decode: for ii in range(nb_aux), unpack
data[jj:jj+2] as '>h' into the aux row buffer at column ii, advance jj by 2. -/
def decodeAuxFrom (data : List Nat) : Nat → Nat → Nat → List Int → Option (List Int)
  | _, _, 0, buf => some buf
  | jj, ii, k + 1, buf =>
    match sliceBytes data jj 2 with
    | [b0, b1] => decodeAuxFrom data (jj + 2) (ii + 1) k (buf.set ii (int16be b0 b1))
    | _ => none

/-- State of an OpenBCIThread (the fields of __init__ that the loop uses;
outputs and serial_port are external collaborators carried implicitly by
the event trace / input stream). -/
structure ThreadState where
  n : Nat
  packet_bsize : Nat
  chan_values : List Int
  aux_values : List Int
  count_lost_bytes : Nat
  nb_channel : Nat
  nb_aux : Nat
deriving DecidableEq, Repr

/-- OpenBCIThread.__init__(outputs, serial_port, nb_channel, nb_aux):
n = 0, packet_bsize = 3 + nb_channel*3 + nb_aux*2, zero row buffers of
widths nb_channel and nb_aux, count_lost_bytes = 0. -/
def OpenBCIThread_init (nb_channel nb_aux : Nat) : ThreadState :=
  { n := 0
    packet_bsize := 3 + nb_channel * 3 + nb_aux * 2
    chan_values := List.replicate nb_channel 0
    aux_values := List.replicate nb_aux 0
    count_lost_bytes := 0
    nb_channel := nb_channel
    nb_aux := nb_aux }

/-- OpenBCIThread.decode(data): channel loop starting at jj = 1, then the
aux loop starting at the hard-coded offset jj = 25 (the source sets jj=25,
not 1 + 3*nb_channel).  Returns the updated (chan_values, aux_values) row
buffers, or none when a struct.unpack raises on a short slice. -/
def decode (st : ThreadState) (data : List Nat) : Option (List Int × List Int) :=
  match decodeChansFrom data 1 0 st.nb_channel st.chan_values with
  | none => none
  | some chan =>
    match decodeAuxFrom data 25 0 st.nb_aux st.aux_values with
    | none => none
    | some aux => some (chan, aux)

/-- Modelled from the spec: the spec (§4.1) places the aux block at offset
1 + 3*channelCount, immediately after the channel block.  This definition
follows the spec's words, for comparison with the source's hard-coded 25. -/
def specAuxOffset (channelCount : Nat) : Nat := 1 + 3 * channelCount

/-- Observable actions of one run of the acquisition loop. -/
inductive Event where
  | flagCheck : Event
  | logLost : Nat → Event
  | logWrongPacket : Event
  | send : String → Nat → List Int → Event
  | crash : Event
deriving DecidableEq, Repr

/-- chan_values[0,:] = 0 (zero every element of the row buffer in place). -/
def zeroRow (buf : List Int) : List Int := buf.map (fun _ => 0)

/-- The number of body bytes the loop reads after the START byte:
serial_port.read(self.packet_bsize - 2). -/
def readBodyLen (st : ThreadState) : Nat := st.packet_bsize - 2

/-- Handling of one full frame after the body and the trailing byte were
read: if the trailing byte is _END_BYTE, run decode (none = struct.error,
the thread dies); else log "Wrong packet" and zero both row buffers. -/
def handleFrame (st : ThreadState) (body : List Nat) (lastByte : Nat) :
    Option (ThreadState × List Event) :=
  if lastByte = _END_BYTE then
    match decode st body with
    | some (chan, aux) => some ({ st with chan_values := chan, aux_values := aux }, [])
    | none => none
  else
    some ({ st with chan_values := zeroRow st.chan_values, aux_values := zeroRow st.aux_values },
          [Event.logWrongPacket])

/-- OpenBCIThread.run, driven by a finite byte stream.  Each outer iteration
checks the running flag under the mutex (Event.flagCheck), then blocks on a
1-byte read.  A START byte flushes/resets count_lost_bytes, reads
packet_bsize - 2 body bytes and 1 trailing byte, handles the frame,
increments n and sends the two row buffers tagged with n; any other byte
increments count_lost_bytes.  The run ends when the stream has too few
bytes for the pending read (the Python loop would block there), or when
decode raises (Event.crash). -/
def run (st : ThreadState) (stream : List Nat) : ThreadState × List Event :=
  match stream with
  | [] => (st, [])
  | b :: rest =>
    if b = _START_BYTE then
      let lostEv : List Event :=
        if st.count_lost_bytes ≠ 0 then [Event.logLost st.count_lost_bytes] else []
      let st1 : ThreadState := { st with count_lost_bytes := 0 }
      if readBodyLen st + 1 ≤ rest.length then
        match handleFrame st1 (rest.take (readBodyLen st)) ((rest.drop (readBodyLen st)).headD 0) with
        | none => (st1, Event.flagCheck :: (lostEv ++ [Event.crash]))
        | some (st2, ev2) =>
          let st3 : ThreadState := { st2 with n := st2.n + 1 }
          let r := run st3 (rest.drop (readBodyLen st + 1))
          (r.1, Event.flagCheck :: (lostEv ++ ev2 ++
            [Event.send "chan" st3.n st3.chan_values, Event.send "aux" st3.n st3.aux_values] ++ r.2))
      else
        (st1, Event.flagCheck :: lostEv)
    else
      let r := run { st with count_lost_bytes := st.count_lost_bytes + 1 } rest
      (r.1, Event.flagCheck :: r.2)
termination_by stream.length
decreasing_by
  · simp only [List.length_cons, List.length_drop]
    omega
  · simp only [List.length_cons]
    omega

/-- Indices of the send events on a given output port, in emission order. -/
def sendIndices (port : String) (evs : List Event) : List Nat :=
  evs.filterMap fun e =>
    match e with
    | Event.send p i _ => if p = port then some i else none
    | _ => none

/-- The (port, row) payloads of the send events, in emission order,
indices stripped. -/
def sendRows (evs : List Event) : List (String × List Int) :=
  evs.filterMap fun e =>
    match e with
    | Event.send p _ row => some (p, row)
    | _ => none

/-- The lost-byte counts reported by logger.debug("Lost %i bytes ..."). -/
def lostLogs (evs : List Event) : List Nat :=
  evs.filterMap fun e =>
    match e with
    | Event.logLost k => some k
    | _ => none

/-- How many times the running flag was checked. -/
def numFlagChecks (evs : List Event) : Nat :=
  (evs.filter fun e =>
    match e with
    | Event.flagCheck => true
    | _ => false).length

/-- Whether the loop died on an uncaught struct.error. -/
def hasCrash (evs : List Event) : Bool :=
  evs.any fun e =>
    match e with
    | Event.crash => true
    | _ => false

/-- What OpenBCI._configure stores: the parameters plus the output stream
specs it records. -/
structure DeviceConfig where
  board_name : String
  device_handle : String
  device_baud : Nat
  packet_bsize : Nat
  nb_channel : Nat
  nb_aux : Nat
  sample_rate : Rat
  chan_spec_shape : Int × Int
  chan_spec_nb_channel : Nat
  aux_spec_shape : Int × Int
  aux_spec_nb_channel : Nat
deriving DecidableEq, Repr

/-- Configuration-time failures an OpenBCI._configure call could raise. -/
inductive ConfigError where
  | invalid : String → ConfigError
deriving DecidableEq, Repr

/-- OpenBCI._configure: stores the supplied parameters and records the two
output stream specs.  The source contains no validation and no raise path,
so the result is always Except.ok. -/
def OpenBCI_configure (board_name device_handle : String) (device_baud : Nat)
    (nb_channel nb_aux : Nat) (sample_rate : Rat) (packet_bsize : Nat) :
    Except ConfigError DeviceConfig :=
  Except.ok
    { board_name := board_name
      device_handle := device_handle
      device_baud := device_baud
      packet_bsize := packet_bsize
      nb_channel := nb_channel
      nb_aux := nb_aux
      sample_rate := sample_rate
      chan_spec_shape := (-1, (nb_channel : Int))
      chan_spec_nb_channel := nb_channel
      aux_spec_shape := (-1, (nb_aux : Int))
      aux_spec_nb_channel := nb_aux }

/-- One frame cycle worth of wire input: junk bytes observed while seeking,
then the START byte, a body, and a candidate END byte. -/
structure WireFrame where
  junk : List Nat
  body : List Nat
  lastByte : Nat
deriving DecidableEq, Repr

/-- A wire frame is well formed for body length bl when its junk contains
no START byte and its body has exactly bl bytes. -/
def WireFrame.wf (bl : Nat) (f : WireFrame) : Prop :=
  (∀ b ∈ f.junk, b ≠ _START_BYTE) ∧ f.body.length = bl

/-- Serialize frame cycles onto the wire. -/
def serializeFrames : List WireFrame → List Nat
  | [] => []
  | f :: fs => f.junk ++ _START_BYTE :: (f.body ++ f.lastByte :: serializeFrames fs)

/-- The list of channel values the channel loop computes from jj on
(buffer-free companion of decodeChansFrom, used to reason about it). -/
def chanValsFrom (data : List Nat) : Nat → Nat → Option (List Int)
  | _, 0 => some []
  | jj, k + 1 =>
    match sliceBytes data jj 3 with
    | [b0, b1, b2] => (chanValsFrom data (jj + 3) k).map (fun vs => decodeChan3 b0 b1 b2 :: vs)
    | _ => none

/-- The list of aux values the aux loop computes from jj on. -/
def auxValsFrom (data : List Nat) : Nat → Nat → Option (List Int)
  | _, 0 => some []
  | jj, k + 1 =>
    match sliceBytes data jj 2 with
    | [b0, b1] => (auxValsFrom data (jj + 2) k).map (fun vs => int16be b0 b1 :: vs)
    | _ => none

/-- Write the values vs into buf at consecutive positions starting at i. -/
def overwriteFrom : List Int → Nat → List Int → List Int
  | buf, _, [] => buf
  | buf, i, v :: vs => overwriteFrom (buf.set i v) (i + 1) vs

/-! ## Lemmas about the decoder loops -/

theorem sliceBytes_length (data : List Nat) (start len : Nat) :
    (sliceBytes data start len).length = min len (data.length - start) := by
  simp [sliceBytes]

theorem sliceBytes_eq_cons₃ {data : List Nat} {jj b0 b1 b2 : Nat}
    (h : sliceBytes data jj 3 = [b0, b1, b2]) :
    data[jj]? = some b0 ∧ data[jj + 1]? = some b1 ∧ data[jj + 2]? = some b2 := by
  have hd : data.drop jj = [b0, b1, b2] ++ (data.drop jj).drop 3 := by
    conv_lhs => rw [← List.take_append_drop 3 (data.drop jj)]
    rw [show (data.drop jj).take 3 = [b0, b1, b2] from h]
  refine ⟨?_, ?_, ?_⟩
  · have h0 := List.getElem?_drop data jj 0
    simp only [Nat.add_zero] at h0
    rw [← h0, hd]; simp
  · rw [← List.getElem?_drop data jj 1, hd]; simp
  · rw [← List.getElem?_drop data jj 2, hd]; simp

theorem sliceBytes_eq_cons₂ {data : List Nat} {jj b0 b1 : Nat}
    (h : sliceBytes data jj 2 = [b0, b1]) :
    data[jj]? = some b0 ∧ data[jj + 1]? = some b1 := by
  have hd : data.drop jj = [b0, b1] ++ (data.drop jj).drop 2 := by
    conv_lhs => rw [← List.take_append_drop 2 (data.drop jj)]
    rw [show (data.drop jj).take 2 = [b0, b1] from h]
  refine ⟨?_, ?_⟩
  · have h0 := List.getElem?_drop data jj 0
    simp only [Nat.add_zero] at h0
    rw [← h0, hd]; simp
  · rw [← List.getElem?_drop data jj 1, hd]; simp

theorem decodeChansFrom_eq (data : List Nat) :
    ∀ (k jj ii : Nat) (buf : List Int),
      decodeChansFrom data jj ii k buf =
        (chanValsFrom data jj k).map (fun vs => overwriteFrom buf ii vs)
  | 0, jj, ii, buf => by simp [decodeChansFrom, chanValsFrom, overwriteFrom]
  | k + 1, jj, ii, buf => by
    simp only [decodeChansFrom, chanValsFrom]
    split
    · rename_i b0 b1 b2 _
      rw [decodeChansFrom_eq data k (jj + 3) (ii + 1) (buf.set ii (decodeChan3 b0 b1 b2))]
      cases chanValsFrom data (jj + 3) k <;> simp [overwriteFrom]
    · rfl

theorem decodeAuxFrom_eq (data : List Nat) :
    ∀ (k jj ii : Nat) (buf : List Int),
      decodeAuxFrom data jj ii k buf =
        (auxValsFrom data jj k).map (fun vs => overwriteFrom buf ii vs)
  | 0, jj, ii, buf => by simp [decodeAuxFrom, auxValsFrom, overwriteFrom]
  | k + 1, jj, ii, buf => by
    simp only [decodeAuxFrom, auxValsFrom]
    split
    · rename_i b0 b1 _
      rw [decodeAuxFrom_eq data k (jj + 2) (ii + 1) (buf.set ii (int16be b0 b1))]
      cases auxValsFrom data (jj + 2) k <;> simp [overwriteFrom]
    · rfl

theorem overwriteFrom_append :
    ∀ (vs A D : List Int), vs.length ≤ D.length →
      overwriteFrom (A ++ D) A.length vs = A ++ vs ++ D.drop vs.length
  | [], A, D, _ => by simp [overwriteFrom]
  | v :: vs, A, D, h => by
    match D with
    | [] => simp at h
    | d :: D' =>
      simp only [List.length_cons] at h
      have hset : (A ++ d :: D').set A.length v = (A ++ [v]) ++ D' := by
        simp [List.set_append]
      have hlen : A.length + 1 = (A ++ [v]).length := by simp
      simp only [overwriteFrom, hset, hlen]
      rw [overwriteFrom_append vs (A ++ [v]) D' (by omega)]
      simp [List.drop_succ_cons]

theorem overwriteFrom_full (vs buf : List Int) (h : vs.length = buf.length) :
    overwriteFrom buf 0 vs = vs := by
  have h0 : overwriteFrom ([] ++ buf) (List.length ([] : List Int)) vs
      = [] ++ vs ++ buf.drop vs.length := overwriteFrom_append vs [] buf (by omega)
  simpa [h, List.drop_length] using h0

theorem chanValsFrom_length (data : List Nat) :
    ∀ (k jj : Nat) (vs : List Int), chanValsFrom data jj k = some vs → vs.length = k
  | 0, jj, vs => by
    intro h
    have h' : some ([] : List Int) = some vs := h
    cases h'
    rfl
  | k + 1, jj, vs => by
    intro h
    simp only [chanValsFrom] at h
    split at h
    · rename_i b0 b1 b2 _
      cases hrec : chanValsFrom data (jj + 3) k with
      | none => rw [hrec] at h; cases h
      | some ws =>
        rw [hrec] at h
        simp only [Option.map_some'] at h
        cases h
        simp [chanValsFrom_length data k (jj + 3) ws hrec]
    · cases h

theorem auxValsFrom_length (data : List Nat) :
    ∀ (k jj : Nat) (vs : List Int), auxValsFrom data jj k = some vs → vs.length = k
  | 0, jj, vs => by
    intro h
    have h' : some ([] : List Int) = some vs := h
    cases h'
    rfl
  | k + 1, jj, vs => by
    intro h
    simp only [auxValsFrom] at h
    split at h
    · rename_i b0 b1 _
      cases hrec : auxValsFrom data (jj + 2) k with
      | none => rw [hrec] at h; cases h
      | some ws =>
        rw [hrec] at h
        simp only [Option.map_some'] at h
        cases h
        simp [auxValsFrom_length data k (jj + 2) ws hrec]
    · cases h

theorem chanValsFrom_isSome (data : List Nat) :
    ∀ (k jj : Nat), jj + 3 * k ≤ data.length → ∃ vs, chanValsFrom data jj k = some vs
  | 0, jj, _ => ⟨[], rfl⟩
  | k + 1, jj, h => by
    have hs : (sliceBytes data jj 3).length = 3 := by
      rw [sliceBytes_length]
      omega
    obtain ⟨b0, b1, b2, hb⟩ := List.length_eq_three.mp hs
    obtain ⟨ws, hws⟩ := chanValsFrom_isSome data k (jj + 3) (by omega)
    refine ⟨decodeChan3 b0 b1 b2 :: ws, ?_⟩
    simp only [chanValsFrom, hb, hws, Option.map_some']

theorem auxValsFrom_isSome (data : List Nat) :
    ∀ (k jj : Nat), jj + 2 * k ≤ data.length → ∃ vs, auxValsFrom data jj k = some vs
  | 0, jj, _ => ⟨[], rfl⟩
  | k + 1, jj, h => by
    have hs : (sliceBytes data jj 2).length = 2 := by
      rw [sliceBytes_length]
      omega
    obtain ⟨b0, b1, hb⟩ := List.length_eq_two.mp hs
    obtain ⟨ws, hws⟩ := auxValsFrom_isSome data k (jj + 2) (by omega)
    refine ⟨int16be b0 b1 :: ws, ?_⟩
    simp only [auxValsFrom, hb, hws, Option.map_some']

theorem chanValsFrom_getElem (data : List Nat) :
    ∀ (k jj : Nat) (vs : List Int), chanValsFrom data jj k = some vs →
      ∀ i, i < k → vs[i]? =
        some (decodeChan3 (data.getD (jj + 3 * i) 0) (data.getD (jj + 3 * i + 1) 0)
          (data.getD (jj + 3 * i + 2) 0))
  | 0, jj, vs => by
    intro _ i hi
    omega
  | k + 1, jj, vs => by
    intro h i hi
    simp only [chanValsFrom] at h
    split at h
    · rename_i b0 b1 b2 hslice
      cases hrec : chanValsFrom data (jj + 3) k with
      | none => rw [hrec] at h; cases h
      | some ws =>
        rw [hrec] at h
        simp only [Option.map_some'] at h
        cases h
        obtain ⟨h0, h1, h2⟩ := sliceBytes_eq_cons₃ hslice
        match i with
        | 0 =>
          simp only [Nat.mul_zero, Nat.add_zero, List.getElem?_cons_zero]
          rw [List.getD_eq_getElem?_getD, List.getD_eq_getElem?_getD,
            List.getD_eq_getElem?_getD, h0, h1, h2]
          rfl
        | i + 1 =>
          simp only [List.getElem?_cons_succ]
          rw [show jj + 3 * (i + 1) = jj + 3 + 3 * i from by omega]
          exact chanValsFrom_getElem data k (jj + 3) ws hrec i (by omega)
    · cases h

theorem auxValsFrom_getElem (data : List Nat) :
    ∀ (k jj : Nat) (vs : List Int), auxValsFrom data jj k = some vs →
      ∀ i, i < k → vs[i]? =
        some (int16be (data.getD (jj + 2 * i) 0) (data.getD (jj + 2 * i + 1) 0))
  | 0, jj, vs => by
    intro _ i hi
    omega
  | k + 1, jj, vs => by
    intro h i hi
    simp only [auxValsFrom] at h
    split at h
    · rename_i b0 b1 hslice
      cases hrec : auxValsFrom data (jj + 2) k with
      | none => rw [hrec] at h; cases h
      | some ws =>
        rw [hrec] at h
        simp only [Option.map_some'] at h
        cases h
        obtain ⟨h0, h1⟩ := sliceBytes_eq_cons₂ hslice
        match i with
        | 0 =>
          simp only [Nat.mul_zero, Nat.add_zero, List.getElem?_cons_zero]
          rw [List.getD_eq_getElem?_getD, List.getD_eq_getElem?_getD, h0, h1]
          rfl
        | i + 1 =>
          simp only [List.getElem?_cons_succ]
          rw [show jj + 2 * (i + 1) = jj + 2 + 2 * i from by omega]
          exact auxValsFrom_getElem data k (jj + 2) ws hrec i (by omega)
    · cases h

theorem decode_eq (st : ThreadState) (data : List Nat) :
    decode st data =
      (chanValsFrom data 1 st.nb_channel).bind fun cs =>
        (auxValsFrom data 25 st.nb_aux).map fun as2 =>
          (overwriteFrom st.chan_values 0 cs, overwriteFrom st.aux_values 0 as2) := by
  unfold decode
  rw [decodeChansFrom_eq, decodeAuxFrom_eq]
  cases chanValsFrom data 1 st.nb_channel <;>
    cases auxValsFrom data 25 st.nb_aux <;> simp

theorem decode_isSome_of_default (st : ThreadState) (data : List Nat)
    (h8 : st.nb_channel = 8) (h3 : st.nb_aux = 3) (hlen : 31 ≤ data.length) :
    ∃ chan aux, decode st data = some (chan, aux) := by
  obtain ⟨cs, hcs⟩ := chanValsFrom_isSome data st.nb_channel 1 (by omega)
  obtain ⟨as2, has⟩ := auxValsFrom_isSome data st.nb_aux 25 (by omega)
  refine ⟨overwriteFrom st.chan_values 0 cs, overwriteFrom st.aux_values 0 as2, ?_⟩
  rw [decode_eq, hcs, has]
  rfl

theorem decode_buffers_irrelevant (st st' : ThreadState) (data : List Nat)
    (hc : st.nb_channel = st'.nb_channel) (ha : st.nb_aux = st'.nb_aux)
    (hcl : st.chan_values.length = st.nb_channel)
    (hcl' : st'.chan_values.length = st'.nb_channel)
    (hal : st.aux_values.length = st.nb_aux)
    (hal' : st'.aux_values.length = st'.nb_aux) :
    decode st data = decode st' data := by
  rw [decode_eq, decode_eq, hc, ha]
  cases hcs : chanValsFrom data 1 st'.nb_channel with
  | none => rfl
  | some cs =>
    cases has : auxValsFrom data 25 st'.nb_aux with
    | none => rfl
    | some as2 =>
      have hcsl := chanValsFrom_length data st'.nb_channel 1 cs hcs
      have hasl := auxValsFrom_length data st'.nb_aux 25 as2 has
      show some (overwriteFrom st.chan_values 0 cs, overwriteFrom st.aux_values 0 as2)
        = some (overwriteFrom st'.chan_values 0 cs, overwriteFrom st'.aux_values 0 as2)
      rw [overwriteFrom_full cs st.chan_values (by omega),
        overwriteFrom_full cs st'.chan_values (by omega),
        overwriteFrom_full as2 st.aux_values (by omega),
        overwriteFrom_full as2 st'.aux_values (by omega)]

/-! ## Lemmas about the acquisition loop -/

theorem run_nil (st : ThreadState) : run st [] = (st, []) := by
  unfold run
  rfl

theorem run_junk_cons (st : ThreadState) (b : Nat) (rest : List Nat) (hb : b ≠ _START_BYTE) :
    run st (b :: rest) =
      ((run { st with count_lost_bytes := st.count_lost_bytes + 1 } rest).1,
       Event.flagCheck :: (run { st with count_lost_bytes := st.count_lost_bytes + 1 } rest).2) := by
  conv_lhs => unfold run
  rw [if_neg hb]

theorem run_junk (st : ThreadState) (junk : List Nat) (s : List Nat)
    (hj : ∀ b ∈ junk, b ≠ _START_BYTE) :
    run st (junk ++ s)
      = ((run { st with count_lost_bytes := st.count_lost_bytes + junk.length } s).1,
         List.replicate junk.length Event.flagCheck
           ++ (run { st with count_lost_bytes := st.count_lost_bytes + junk.length } s).2) := by
  induction junk generalizing st with
  | nil =>
    simp only [List.nil_append, List.length_nil, Nat.add_zero, List.replicate_zero]
  | cons b junk ih =>
    have hb : b ≠ _START_BYTE := hj b (List.mem_cons_self b junk)
    have hj' : ∀ x ∈ junk, x ≠ _START_BYTE := fun x hx => hj x (List.mem_cons_of_mem b hx)
    rw [List.cons_append, run_junk_cons st b (junk ++ s) hb,
      ih { st with count_lost_bytes := st.count_lost_bytes + 1 } hj']
    have harith : st.count_lost_bytes + 1 + junk.length
        = st.count_lost_bytes + (b :: junk).length := by
      simp only [List.length_cons]
      omega
    simp only [harith, List.length_cons, List.replicate_succ, List.cons_append]

theorem run_frame (st : ThreadState) (body : List Nat) (lastByte : Nat) (s : List Nat)
    (hlen : body.length = readBodyLen st) :
    run st (_START_BYTE :: (body ++ lastByte :: s)) =
      match handleFrame { st with count_lost_bytes := 0 } body lastByte with
      | none => ({ st with count_lost_bytes := 0 },
          Event.flagCheck ::
            ((if st.count_lost_bytes ≠ 0 then [Event.logLost st.count_lost_bytes] else [])
              ++ [Event.crash]))
      | some (st2, ev2) =>
        ((run { st2 with n := st2.n + 1 } s).1,
         Event.flagCheck ::
           ((if st.count_lost_bytes ≠ 0 then [Event.logLost st.count_lost_bytes] else [])
             ++ ev2
             ++ [Event.send "chan" (st2.n + 1) st2.chan_values,
                 Event.send "aux" (st2.n + 1) st2.aux_values]
             ++ (run { st2 with n := st2.n + 1 } s).2)) := by
  conv_lhs => unfold run
  rw [if_pos rfl]
  have hcond : readBodyLen st + 1 ≤ (body ++ lastByte :: s).length := by
    simp only [List.length_append, List.length_cons]
    omega
  rw [if_pos hcond]
  rw [List.take_left' hlen, List.drop_left' hlen]
  have hdrop : (body ++ lastByte :: s).drop (readBodyLen st + 1) = s := by
    have hsplit : body ++ lastByte :: s = (body ++ [lastByte]) ++ s := by simp
    have hlen' : (body ++ [lastByte]).length = readBodyLen st + 1 := by
      simp only [List.length_append, List.length_singleton]
      omega
    rw [hsplit, List.drop_left' hlen']
  rw [hdrop]
  simp only [List.headD_cons]

/-! ## Event extraction lemmas -/

@[simp] theorem sendIndices_nil (p : String) : sendIndices p [] = [] := rfl

@[simp] theorem sendIndices_cons_flagCheck (p : String) (evs : List Event) :
    sendIndices p (Event.flagCheck :: evs) = sendIndices p evs := by
  simp [sendIndices]

@[simp] theorem sendIndices_cons_logLost (p : String) (k : Nat) (evs : List Event) :
    sendIndices p (Event.logLost k :: evs) = sendIndices p evs := by
  simp [sendIndices]

@[simp] theorem sendIndices_cons_wrongPacket (p : String) (evs : List Event) :
    sendIndices p (Event.logWrongPacket :: evs) = sendIndices p evs := by
  simp [sendIndices]

@[simp] theorem sendIndices_cons_crash (p : String) (evs : List Event) :
    sendIndices p (Event.crash :: evs) = sendIndices p evs := by
  simp [sendIndices]

@[simp] theorem sendIndices_cons_send (p q : String) (i : Nat) (row : List Int)
    (evs : List Event) :
    sendIndices p (Event.send q i row :: evs)
      = if q = p then i :: sendIndices p evs else sendIndices p evs := by
  by_cases h : q = p <;> simp [sendIndices, h]

@[simp] theorem sendIndices_append (p : String) (a b : List Event) :
    sendIndices p (a ++ b) = sendIndices p a ++ sendIndices p b := by
  simp [sendIndices, List.filterMap_append]

@[simp] theorem sendIndices_replicate_flagCheck (p : String) (k : Nat) :
    sendIndices p (List.replicate k Event.flagCheck) = [] := by
  induction k with
  | zero => rfl
  | succ k ih => simp [List.replicate_succ, ih]

@[simp] theorem sendRows_nil : sendRows [] = [] := rfl

@[simp] theorem sendRows_cons_flagCheck (evs : List Event) :
    sendRows (Event.flagCheck :: evs) = sendRows evs := by
  simp [sendRows]

@[simp] theorem sendRows_cons_logLost (k : Nat) (evs : List Event) :
    sendRows (Event.logLost k :: evs) = sendRows evs := by
  simp [sendRows]

@[simp] theorem sendRows_cons_wrongPacket (evs : List Event) :
    sendRows (Event.logWrongPacket :: evs) = sendRows evs := by
  simp [sendRows]

@[simp] theorem sendRows_cons_crash (evs : List Event) :
    sendRows (Event.crash :: evs) = sendRows evs := by
  simp [sendRows]

@[simp] theorem sendRows_cons_send (q : String) (i : Nat) (row : List Int) (evs : List Event) :
    sendRows (Event.send q i row :: evs) = (q, row) :: sendRows evs := by
  simp [sendRows]

@[simp] theorem sendRows_append (a b : List Event) :
    sendRows (a ++ b) = sendRows a ++ sendRows b := by
  simp [sendRows, List.filterMap_append]

@[simp] theorem sendRows_replicate_flagCheck (k : Nat) :
    sendRows (List.replicate k Event.flagCheck) = [] := by
  induction k with
  | zero => rfl
  | succ k ih => simp [List.replicate_succ, ih]

@[simp] theorem lostLogs_nil : lostLogs [] = [] := rfl

@[simp] theorem lostLogs_cons_flagCheck (evs : List Event) :
    lostLogs (Event.flagCheck :: evs) = lostLogs evs := by
  simp [lostLogs]

@[simp] theorem lostLogs_cons_logLost (k : Nat) (evs : List Event) :
    lostLogs (Event.logLost k :: evs) = k :: lostLogs evs := by
  simp [lostLogs]

@[simp] theorem lostLogs_cons_wrongPacket (evs : List Event) :
    lostLogs (Event.logWrongPacket :: evs) = lostLogs evs := by
  simp [lostLogs]

@[simp] theorem lostLogs_cons_crash (evs : List Event) :
    lostLogs (Event.crash :: evs) = lostLogs evs := by
  simp [lostLogs]

@[simp] theorem lostLogs_cons_send (q : String) (i : Nat) (row : List Int) (evs : List Event) :
    lostLogs (Event.send q i row :: evs) = lostLogs evs := by
  simp [lostLogs]

@[simp] theorem lostLogs_append (a b : List Event) :
    lostLogs (a ++ b) = lostLogs a ++ lostLogs b := by
  simp [lostLogs, List.filterMap_append]

@[simp] theorem lostLogs_replicate_flagCheck (k : Nat) :
    lostLogs (List.replicate k Event.flagCheck) = [] := by
  induction k with
  | zero => rfl
  | succ k ih => simp [List.replicate_succ, ih]

@[simp] theorem numFlagChecks_nil : numFlagChecks [] = 0 := rfl

@[simp] theorem numFlagChecks_cons_flagCheck (evs : List Event) :
    numFlagChecks (Event.flagCheck :: evs) = numFlagChecks evs + 1 := by
  simp [numFlagChecks, List.filter_cons]

@[simp] theorem numFlagChecks_cons_logLost (k : Nat) (evs : List Event) :
    numFlagChecks (Event.logLost k :: evs) = numFlagChecks evs := by
  simp [numFlagChecks, List.filter_cons]

@[simp] theorem numFlagChecks_cons_wrongPacket (evs : List Event) :
    numFlagChecks (Event.logWrongPacket :: evs) = numFlagChecks evs := by
  simp [numFlagChecks, List.filter_cons]

@[simp] theorem numFlagChecks_cons_crash (evs : List Event) :
    numFlagChecks (Event.crash :: evs) = numFlagChecks evs := by
  simp [numFlagChecks, List.filter_cons]

@[simp] theorem numFlagChecks_cons_send (q : String) (i : Nat) (row : List Int)
    (evs : List Event) :
    numFlagChecks (Event.send q i row :: evs) = numFlagChecks evs := by
  simp [numFlagChecks, List.filter_cons]

@[simp] theorem numFlagChecks_append (a b : List Event) :
    numFlagChecks (a ++ b) = numFlagChecks a + numFlagChecks b := by
  simp [numFlagChecks, List.filter_append]

@[simp] theorem numFlagChecks_replicate_flagCheck (k : Nat) :
    numFlagChecks (List.replicate k Event.flagCheck) = k := by
  induction k with
  | zero => rfl
  | succ k ih => simp [List.replicate_succ, ih]

@[simp] theorem hasCrash_nil : hasCrash [] = false := rfl

@[simp] theorem hasCrash_cons_flagCheck (evs : List Event) :
    hasCrash (Event.flagCheck :: evs) = hasCrash evs := by
  simp [hasCrash]

@[simp] theorem hasCrash_cons_logLost (k : Nat) (evs : List Event) :
    hasCrash (Event.logLost k :: evs) = hasCrash evs := by
  simp [hasCrash]

@[simp] theorem hasCrash_cons_wrongPacket (evs : List Event) :
    hasCrash (Event.logWrongPacket :: evs) = hasCrash evs := by
  simp [hasCrash]

@[simp] theorem hasCrash_cons_send (q : String) (i : Nat) (row : List Int) (evs : List Event) :
    hasCrash (Event.send q i row :: evs) = hasCrash evs := by
  simp [hasCrash]

@[simp] theorem hasCrash_append (a b : List Event) :
    hasCrash (a ++ b) = (hasCrash a || hasCrash b) := by
  simp [hasCrash, List.any_append]

@[simp] theorem hasCrash_replicate_flagCheck (k : Nat) :
    hasCrash (List.replicate k Event.flagCheck) = false := by
  induction k with
  | zero => rfl
  | succ k ih => simp [List.replicate_succ, ih]

/-! ## One-cycle lemmas -/

theorem run_cycle_valid (st : ThreadState) (body : List Nat) (s : List Nat)
    (h8 : st.nb_channel = 8) (h3 : st.nb_aux = 3) (hp : st.packet_bsize = 33)
    (hlen : body.length = 31) :
    ∃ chan aux,
      decode { st with count_lost_bytes := 0 } body = some (chan, aux) ∧
      run st (_START_BYTE :: (body ++ _END_BYTE :: s)) =
        ((run { st with n := st.n + 1, chan_values := chan, aux_values := aux,
                        count_lost_bytes := 0 } s).1,
         Event.flagCheck ::
           ((if st.count_lost_bytes ≠ 0 then [Event.logLost st.count_lost_bytes] else [])
             ++ [Event.send "chan" (st.n + 1) chan, Event.send "aux" (st.n + 1) aux]
             ++ (run { st with n := st.n + 1, chan_values := chan, aux_values := aux,
                               count_lost_bytes := 0 } s).2)) := by
  obtain ⟨chan, aux, hd⟩ :=
    decode_isSome_of_default { st with count_lost_bytes := 0 } body h8 h3 (by omega)
  refine ⟨chan, aux, hd, ?_⟩
  rw [run_frame st body _END_BYTE s (by simp [readBodyLen, hp, hlen])]
  unfold handleFrame
  rw [if_pos rfl, hd]
  simp

theorem run_cycle_corrupt (st : ThreadState) (body : List Nat) (lastByte : Nat) (s : List Nat)
    (hlast : lastByte ≠ _END_BYTE) (hlen : body.length = readBodyLen st) :
    run st (_START_BYTE :: (body ++ lastByte :: s)) =
      ((run { st with n := st.n + 1, chan_values := zeroRow st.chan_values,
                      aux_values := zeroRow st.aux_values, count_lost_bytes := 0 } s).1,
       Event.flagCheck ::
         ((if st.count_lost_bytes ≠ 0 then [Event.logLost st.count_lost_bytes] else [])
           ++ [Event.logWrongPacket]
           ++ [Event.send "chan" (st.n + 1) (zeroRow st.chan_values),
               Event.send "aux" (st.n + 1) (zeroRow st.aux_values)]
           ++ (run { st with n := st.n + 1, chan_values := zeroRow st.chan_values,
                             aux_values := zeroRow st.aux_values, count_lost_bytes := 0 } s).2)) := by
  rw [run_frame st body lastByte s hlen]
  unfold handleFrame
  rw [if_neg hlast]

/-- Specializations of the send extractors to the two literal port names,
with the string comparison discharged. -/
@[simp] theorem sendIndices_chan_send_chan (i : Nat) (row : List Int) (evs : List Event) :
    sendIndices "chan" (Event.send "chan" i row :: evs) = i :: sendIndices "chan" evs := by
  simp [sendIndices, List.filterMap_cons]

@[simp] theorem sendIndices_chan_send_aux (i : Nat) (row : List Int) (evs : List Event) :
    sendIndices "chan" (Event.send "aux" i row :: evs) = sendIndices "chan" evs := by
  simp only [sendIndices, List.filterMap_cons]
  rw [if_neg (by decide)]

@[simp] theorem sendIndices_aux_send_chan (i : Nat) (row : List Int) (evs : List Event) :
    sendIndices "aux" (Event.send "chan" i row :: evs) = sendIndices "aux" evs := by
  simp only [sendIndices, List.filterMap_cons]
  rw [if_neg (by decide)]

@[simp] theorem sendIndices_aux_send_aux (i : Nat) (row : List Int) (evs : List Event) :
    sendIndices "aux" (Event.send "aux" i row :: evs) = i :: sendIndices "aux" evs := by
  simp [sendIndices, List.filterMap_cons]

@[simp] theorem sendIndices_ite_logLost (p : String) (c : Prop) [Decidable c] (k : Nat) :
    sendIndices p (if c then [Event.logLost k] else []) = [] := by
  split <;> simp

@[simp] theorem sendRows_ite_logLost (c : Prop) [Decidable c] (k : Nat) :
    sendRows (if c then [Event.logLost k] else []) = [] := by
  split <;> simp

@[simp] theorem lostLogs_ite_logLost (c : Prop) [Decidable c] (k : Nat) :
    lostLogs (if c then [Event.logLost k] else []) = if c then [k] else [] := by
  split <;> simp

@[simp] theorem numFlagChecks_ite_logLost (c : Prop) [Decidable c] (k : Nat) :
    numFlagChecks (if c then [Event.logLost k] else []) = 0 := by
  split <;> simp [numFlagChecks]

@[simp] theorem hasCrash_ite_logLost (c : Prop) [Decidable c] (k : Nat) :
    hasCrash (if c then [Event.logLost k] else []) = false := by
  split <;> simp [hasCrash]

@[simp] theorem sendIndices_ite_logLost_flip (p : String) (c : Prop) [Decidable c] (k : Nat) :
    sendIndices p (if c then [] else [Event.logLost k]) = [] := by
  split <;> simp

@[simp] theorem sendRows_ite_logLost_flip (c : Prop) [Decidable c] (k : Nat) :
    sendRows (if c then [] else [Event.logLost k]) = [] := by
  split <;> simp

@[simp] theorem lostLogs_ite_logLost_flip (c : Prop) [Decidable c] (k : Nat) :
    lostLogs (if c then [] else [Event.logLost k]) = if c then [] else [k] := by
  split <;> simp

@[simp] theorem numFlagChecks_ite_logLost_flip (c : Prop) [Decidable c] (k : Nat) :
    numFlagChecks (if c then [] else [Event.logLost k]) = 0 := by
  split <;> simp [numFlagChecks]

@[simp] theorem hasCrash_ite_logLost_flip (c : Prop) [Decidable c] (k : Nat) :
    hasCrash (if c then [] else [Event.logLost k]) = false := by
  split <;> simp [hasCrash]

/-- The per-cycle indexing invariant: over any well-formed mixture of valid
and corrupted frame cycles, both output ports receive indices
n+1, n+2, ..., n+#frames, and the loop never crashes. -/
theorem run_sendIndices (fs : List WireFrame) : ∀ (st : ThreadState),
    st.nb_channel = 8 → st.nb_aux = 3 → st.packet_bsize = 33 →
    (∀ f ∈ fs, f.wf 31) →
    sendIndices "chan" (run st (serializeFrames fs)).2 = List.range' (st.n + 1) fs.length ∧
    sendIndices "aux" (run st (serializeFrames fs)).2 = List.range' (st.n + 1) fs.length ∧
    hasCrash (run st (serializeFrames fs)).2 = false := by
  induction fs with
  | nil =>
    intro st _ _ _ _
    simp [serializeFrames, run_nil]
  | cons f fs ih =>
    intro st h8 h3 hp hwf
    obtain ⟨hjunk, hbody⟩ := hwf f (List.mem_cons_self f fs)
    have hwf' : ∀ g ∈ fs, g.wf 31 := fun g hg => hwf g (List.mem_cons_of_mem f hg)
    rw [serializeFrames, run_junk st f.junk _ hjunk]
    by_cases hl : f.lastByte = _END_BYTE
    · rw [hl]
      obtain ⟨chan, aux, hd, heq⟩ := run_cycle_valid
        { st with count_lost_bytes := st.count_lost_bytes + f.junk.length }
        f.body (serializeFrames fs) h8 h3 hp hbody
      rw [heq]
      obtain ⟨ihc, iha, ihx⟩ := ih
        { { st with count_lost_bytes := st.count_lost_bytes + f.junk.length } with
            n := ({ st with count_lost_bytes := st.count_lost_bytes + f.junk.length } :
              ThreadState).n + 1,
            chan_values := chan, aux_values := aux, count_lost_bytes := 0 }
        h8 h3 hp hwf'
      refine ⟨?_, ?_, ?_⟩
      · simp only [sendIndices_append, sendIndices_replicate_flagCheck,
          sendIndices_cons_flagCheck, sendIndices_ite_logLost,
          sendIndices_chan_send_chan, sendIndices_chan_send_aux, sendIndices_nil,
          List.nil_append, List.cons_append, List.append_nil]
        rw [ihc]
        rfl
      · simp only [sendIndices_append, sendIndices_replicate_flagCheck,
          sendIndices_cons_flagCheck, sendIndices_ite_logLost,
          sendIndices_aux_send_chan, sendIndices_aux_send_aux, sendIndices_nil,
          List.nil_append, List.cons_append, List.append_nil]
        rw [iha]
        rfl
      · simp only [hasCrash_append, hasCrash_replicate_flagCheck, hasCrash_cons_flagCheck,
          hasCrash_ite_logLost, hasCrash_cons_send, Bool.false_or]
        exact ihx
    · rw [run_cycle_corrupt
        { st with count_lost_bytes := st.count_lost_bytes + f.junk.length }
        f.body f.lastByte (serializeFrames fs) hl (by simp [readBodyLen, hp, hbody])]
      obtain ⟨ihc, iha, ihx⟩ := ih
        { { st with count_lost_bytes := st.count_lost_bytes + f.junk.length } with
            n := ({ st with count_lost_bytes := st.count_lost_bytes + f.junk.length } :
              ThreadState).n + 1,
            chan_values := zeroRow ({ st with
              count_lost_bytes := st.count_lost_bytes + f.junk.length } :
                ThreadState).chan_values,
            aux_values := zeroRow ({ st with
              count_lost_bytes := st.count_lost_bytes + f.junk.length } :
                ThreadState).aux_values,
            count_lost_bytes := 0 }
        h8 h3 hp hwf'
      refine ⟨?_, ?_, ?_⟩
      · simp only [sendIndices_append, sendIndices_replicate_flagCheck,
          sendIndices_cons_flagCheck, sendIndices_ite_logLost,
          sendIndices_cons_wrongPacket,
          sendIndices_chan_send_chan, sendIndices_chan_send_aux, sendIndices_nil,
          List.nil_append, List.cons_append, List.append_nil]
        rw [ihc]
        rfl
      · simp only [sendIndices_append, sendIndices_replicate_flagCheck,
          sendIndices_cons_flagCheck, sendIndices_ite_logLost,
          sendIndices_cons_wrongPacket,
          sendIndices_aux_send_chan, sendIndices_aux_send_aux, sendIndices_nil,
          List.nil_append, List.cons_append, List.append_nil]
        rw [iha]
        rfl
      · simp only [hasCrash_append, hasCrash_replicate_flagCheck, hasCrash_cons_flagCheck,
          hasCrash_ite_logLost, hasCrash_cons_wrongPacket, hasCrash_cons_send, Bool.false_or]
        exact ihx

/-! ## Remaining helper lemmas -/

/-- The loop after a START byte with too few remaining bytes: it resets the
lost-byte counter, logs any loss, and blocks on the body read. -/
theorem run_start_blocked (st : ThreadState) (rest : List Nat)
    (hshort : rest.length < readBodyLen st + 1) :
    run st (_START_BYTE :: rest) =
      ({ st with count_lost_bytes := 0 },
       Event.flagCheck ::
         (if st.count_lost_bytes ≠ 0 then [Event.logLost st.count_lost_bytes] else [])) := by
  conv_lhs => unfold run
  rw [if_pos rfl, if_neg (by omega)]

theorem zeroRow_eq_replicate (l : List Int) : zeroRow l = List.replicate l.length 0 := by
  induction l with
  | nil => rfl
  | cons a l ih =>
    simp only [zeroRow, List.map_cons, List.length_cons, List.replicate_succ] at ih ⊢
    rw [ih]

theorem decodeChan3_eq_int32be (b0 b1 b2 : Nat) :
    decodeChan3 b0 b1 b2
      = int32be (if 127 ≤ b0 then 0xFF else 0x00) b0 b1 b2 := by
  unfold decodeChan3
  split <;> rfl

/-- Whether an OpenBCI._configure call succeeded. -/
def configOk : Except ConfigError DeviceConfig → Bool
  | Except.ok _ => true
  | Except.error _ => false

/-! ## Claim theorems -/

/-- C1: for every body that decode accepts, each of the nb_channel output
values is obtained from the 3 consecutive bytes starting at body offset 1
(channel ii at offsets 1+3*ii .. 3+3*ii), prefixed with 0xFF when the first
of the 3 bytes is >= 127 and 0x00 otherwise, reinterpreted as a big-endian
signed 32-bit integer stored as a wide signed integer; output ordering
equals input ordering and no scaling is applied. -/
theorem c1_decode_channel_fields (st : ThreadState) (data : List Nat) (chan aux : List Int)
    (hbuf : st.chan_values.length = st.nb_channel)
    (h : decode st data = some (chan, aux)) :
    chan.length = st.nb_channel ∧
    ∀ i, i < st.nb_channel →
      chan[i]? = some (int32be (if 127 ≤ data.getD (1 + 3 * i) 0 then 0xFF else 0x00)
        (data.getD (1 + 3 * i) 0) (data.getD (2 + 3 * i) 0) (data.getD (3 + 3 * i) 0)) := by
  rw [decode_eq] at h
  cases hcs : chanValsFrom data 1 st.nb_channel with
  | none => rw [hcs] at h; cases h
  | some cs =>
    cases has : auxValsFrom data 25 st.nb_aux with
    | none => rw [hcs, has] at h; cases h
    | some as2 =>
      rw [hcs, has] at h
      have hcsl := chanValsFrom_length data st.nb_channel 1 cs hcs
      have hchan : chan = cs := by
        have h' : some (overwriteFrom st.chan_values 0 cs, overwriteFrom st.aux_values 0 as2)
            = some (chan, aux) := h
        have h'' := Option.some.inj h'
        injection h'' with hfst hsnd
        rw [← hfst, overwriteFrom_full cs st.chan_values (by omega)]
      subst hchan
      refine ⟨hcsl, fun i hi => ?_⟩
      have hg := chanValsFrom_getElem data st.nb_channel 1 chan hcs i hi
      rw [hg, decodeChan3_eq_int32be]
      have e1 : 1 + 3 * i + 1 = 2 + 3 * i := by omega
      have e2 : 1 + 3 * i + 2 = 3 + 3 * i := by omega
      rw [e1, e2]

/-- C1 witness: the theorem applied to the default 8-channel configuration
and a concrete 31-byte body whose first channel field is 0x80 0x00 0x00. -/
theorem c1_decode_channel_fields_witness :
    ((OpenBCIThread_init 8 3).chan_values.length = (OpenBCIThread_init 8 3).nb_channel ∧
     decode (OpenBCIThread_init 8 3) ((List.replicate 31 0).set 1 0x80)
       = some ((List.replicate 8 0).set 0 (-8388608), List.replicate 3 0)) ∧
    (((List.replicate 8 0 : List Int).set 0 (-8388608)).length
        = (OpenBCIThread_init 8 3).nb_channel ∧
     ∀ i, i < (OpenBCIThread_init 8 3).nb_channel →
       ((List.replicate 8 0 : List Int).set 0 (-8388608))[i]? =
         some (int32be
           (if 127 ≤ (((List.replicate 31 0).set 1 0x80 : List Nat)).getD (1 + 3 * i) 0
            then 0xFF else 0x00)
           ((((List.replicate 31 0).set 1 0x80 : List Nat)).getD (1 + 3 * i) 0)
           ((((List.replicate 31 0).set 1 0x80 : List Nat)).getD (2 + 3 * i) 0)
           ((((List.replicate 31 0).set 1 0x80 : List Nat)).getD (3 + 3 * i) 0))) :=
  ⟨⟨by decide, by decide⟩,
   c1_decode_channel_fields (OpenBCIThread_init 8 3) ((List.replicate 31 0).set 1 0x80)
     ((List.replicate 8 0).set 0 (-8388608)) (List.replicate 3 0) (by decide) (by decide)⟩

/-- C3 counterexample: a channel field whose first byte is 0x7F (127)
decodes to a negative value (-8388609), not to the positive boundary
8388607 the claim requires; shown both for the field decoder and through a
full decode call on a validated 31-byte body. -/
theorem c3_sign_boundary_counterexample :
    decodeChan3 0x7F 0xFF 0xFF = -8388609 ∧
    decodeChan3 0x7F 0xFF 0xFF < 0 ∧
    decodeChan3 0x7F 0xFF 0xFF ≠ 8388607 ∧
    decode (OpenBCIThread_init 8 3)
        (0 :: 0x7F :: 0xFF :: 0xFF :: List.replicate 27 0)
      = some ((List.replicate 8 0).set 0 (-8388609), List.replicate 3 0) := by
  decide

/-- C3 amended: with the source's test (first byte >= 127), a 3-byte channel
field decodes negative exactly when its first byte is >= 127 — so 0x80
decodes negative (and 0x80 0x00 0x00 gives -8388608, matching reference
24-to-32-bit sign extension), but 0x7F also decodes negative:
0x7F 0xFF 0xFF gives -8388609, not the positive boundary. -/
theorem c3_sign_boundary_amended (b0 b1 b2 : Nat)
    (hb0 : b0 ≤ 255) (hb1 : b1 ≤ 255) (hb2 : b2 ≤ 255) :
    (decodeChan3 b0 b1 b2 < 0 ↔ 127 ≤ b0) ∧
    decodeChan3 0x80 0x00 0x00 = -8388608 ∧
    decodeChan3 0x7F 0xFF 0xFF = -8388609 := by
  refine ⟨?_, by decide, by decide⟩
  constructor
  · intro hneg
    by_contra hlt
    have hb : b0 ≤ 126 := by omega
    simp only [decodeChan3, int32be] at hneg
    rw [if_neg (by omega)] at hneg
    split at hneg
    · omega
    · rename_i hbig
      exfalso
      apply hbig
      omega
  · intro hge
    simp only [decodeChan3, int32be]
    rw [if_pos hge]
    split
    · rename_i hsmall
      exfalso
      omega
    · omega

/-- C3 amended witness: the amended theorem applied at the boundary field
0x7F 0xFF 0xFF. -/
theorem c3_sign_boundary_amended_witness :
    ((0x7F : Nat) ≤ 255 ∧ (0xFF : Nat) ≤ 255) ∧
    ((decodeChan3 0x7F 0xFF 0xFF < 0 ↔ 127 ≤ 0x7F) ∧
     decodeChan3 0x80 0x00 0x00 = -8388608 ∧
     decodeChan3 0x7F 0xFF 0xFF = -8388609) :=
  ⟨⟨by decide, by decide⟩,
   c3_sign_boundary_amended 0x7F 0xFF 0xFF (by decide) (by decide) (by decide)⟩

/-- C4: the aux loop starts at the hard-coded body offset 25, not at
1 + 3*channelCount.  With channelCount = 12, auxCount = 1 the spec offset is
37; on a 43-byte body that is zero except for byte 37 = 1, the spec-mandated
value is 256 but decode returns 0 (it reads offsets 25..26 inside the
channel block).  With channelCount = 1 the offset 25 is past the 10-byte
body and decode fails outright (struct.error), where the spec's offset 4 is
in range. -/
theorem c4_aux_offset_hardcoded_evidence :
    specAuxOffset 12 = 37 ∧
    ((List.replicate 43 0).set 37 1 : List Nat).getD (specAuxOffset 12) 0 = 1 ∧
    int16be 1 0 = 256 ∧
    decode (OpenBCIThread_init 12 1) ((List.replicate 43 0).set 37 1)
      = some (List.replicate 12 0, [0]) ∧
    (0 : Int) ≠ 256 ∧
    specAuxOffset 1 = 4 ∧
    decode (OpenBCIThread_init 1 3) (List.replicate 10 0) = none := by
  decide

instance (bl : Nat) (f : WireFrame) : Decidable (f.wf bl) := by
  unfold WireFrame.wf
  infer_instance

/-- C2: over any mixture of valid and corrupted frame cycles, the chan and
aux rows of each cycle are sent with the same sampleIndex, the indices are
1, 2, ..., #cycles with no gaps or duplicates, the first is 1, and the loop
never crashes; and one well-formed all-zero 8-channel/3-aux frame yields
chan row [0]*8, aux row [0]*3 and sampleIndex 1. -/
theorem c2_sample_index_invariant (fs : List WireFrame) (hwf : ∀ f ∈ fs, f.wf 31) :
    (sendIndices "chan" (run (OpenBCIThread_init 8 3) (serializeFrames fs)).2
        = List.range' 1 fs.length ∧
     sendIndices "aux" (run (OpenBCIThread_init 8 3) (serializeFrames fs)).2
        = List.range' 1 fs.length ∧
     hasCrash (run (OpenBCIThread_init 8 3) (serializeFrames fs)).2 = false) ∧
    run (OpenBCIThread_init 8 3) (_START_BYTE :: (List.replicate 31 0 ++ [_END_BYTE]))
      = ({ OpenBCIThread_init 8 3 with n := 1 },
         [Event.flagCheck, Event.send "chan" 1 (List.replicate 8 0),
          Event.send "aux" 1 (List.replicate 3 0)]) := by
  refine ⟨run_sendIndices fs (OpenBCIThread_init 8 3) rfl rfl rfl hwf, ?_⟩
  obtain ⟨chan, aux, hd, heq⟩ := run_cycle_valid (OpenBCIThread_init 8 3)
    (List.replicate 31 0) [] rfl rfl rfl (by decide)
  have hconc : decode { OpenBCIThread_init 8 3 with count_lost_bytes := 0 }
      (List.replicate 31 0) = some (List.replicate 8 0, List.replicate 3 0) := by decide
  have hpair := Option.some.inj (hd.symm.trans hconc)
  injection hpair with hc ha
  subst hc
  subst ha
  rw [heq, run_nil]
  decide

/-- C2 witness: the theorem applied to a run with one valid frame and one
corrupted frame preceded by a junk byte. -/
theorem c2_sample_index_invariant_witness :
    (∀ f ∈ [WireFrame.mk [] (List.replicate 31 0) 0xC0,
            WireFrame.mk [7] (List.replicate 31 1) 0], f.wf 31) ∧
    ((sendIndices "chan" (run (OpenBCIThread_init 8 3)
        (serializeFrames [WireFrame.mk [] (List.replicate 31 0) 0xC0,
                          WireFrame.mk [7] (List.replicate 31 1) 0])).2
        = List.range' 1 ([WireFrame.mk [] (List.replicate 31 0) 0xC0,
                          WireFrame.mk [7] (List.replicate 31 1) 0] : List WireFrame).length ∧
      sendIndices "aux" (run (OpenBCIThread_init 8 3)
        (serializeFrames [WireFrame.mk [] (List.replicate 31 0) 0xC0,
                          WireFrame.mk [7] (List.replicate 31 1) 0])).2
        = List.range' 1 ([WireFrame.mk [] (List.replicate 31 0) 0xC0,
                          WireFrame.mk [7] (List.replicate 31 1) 0] : List WireFrame).length ∧
      hasCrash (run (OpenBCIThread_init 8 3)
        (serializeFrames [WireFrame.mk [] (List.replicate 31 0) 0xC0,
                          WireFrame.mk [7] (List.replicate 31 1) 0])).2 = false) ∧
     run (OpenBCIThread_init 8 3) (_START_BYTE :: (List.replicate 31 0 ++ [_END_BYTE]))
       = ({ OpenBCIThread_init 8 3 with n := 1 },
          [Event.flagCheck, Event.send "chan" 1 (List.replicate 8 0),
           Event.send "aux" 1 (List.replicate 3 0)])) :=
  ⟨by decide,
   c2_sample_index_invariant
     [WireFrame.mk [] (List.replicate 31 0) 0xC0,
      WireFrame.mk [7] (List.replicate 31 1) 0] (by decide)⟩

/-- C5: when the full body was read but the trailing byte is not 0xC0, the
cycle emits an all-zero chan row and an all-zero aux row to both sinks,
tagged with index n+1 (the index still advances by exactly 1), and the
worker does not crash. -/
theorem c5_corrupt_frame_zeroed (st : ThreadState) (body : List Nat) (lastByte : Nat)
    (hlen : body.length = readBodyLen st) (hlast : lastByte ≠ _END_BYTE)
    (hcl : st.chan_values.length = st.nb_channel) (hal : st.aux_values.length = st.nb_aux) :
    sendRows (run st (_START_BYTE :: (body ++ [lastByte]))).2
      = [("chan", List.replicate st.nb_channel 0), ("aux", List.replicate st.nb_aux 0)] ∧
    sendIndices "chan" (run st (_START_BYTE :: (body ++ [lastByte]))).2 = [st.n + 1] ∧
    sendIndices "aux" (run st (_START_BYTE :: (body ++ [lastByte]))).2 = [st.n + 1] ∧
    (run st (_START_BYTE :: (body ++ [lastByte]))).1.n = st.n + 1 ∧
    hasCrash (run st (_START_BYTE :: (body ++ [lastByte]))).2 = false := by
  rw [show (_START_BYTE :: (body ++ [lastByte])) = _START_BYTE :: (body ++ lastByte :: [])
      from rfl,
    run_cycle_corrupt st body lastByte [] hlast hlen]
  rw [run_nil]
  refine ⟨?_, ?_, ?_, ?_, ?_⟩ <;>
    simp [zeroRow_eq_replicate, hcl, hal]

/-- C5 witness: the theorem applied to a concrete corrupted frame. -/
theorem c5_corrupt_frame_zeroed_witness :
    ((List.replicate 31 (5:Nat)).length = readBodyLen (OpenBCIThread_init 8 3) ∧
     (7:Nat) ≠ _END_BYTE) ∧
    (sendRows (run (OpenBCIThread_init 8 3)
        (_START_BYTE :: (List.replicate 31 5 ++ [7]))).2
      = [("chan", List.replicate (OpenBCIThread_init 8 3).nb_channel 0),
         ("aux", List.replicate (OpenBCIThread_init 8 3).nb_aux 0)] ∧
     sendIndices "chan" (run (OpenBCIThread_init 8 3)
        (_START_BYTE :: (List.replicate 31 5 ++ [7]))).2 = [(OpenBCIThread_init 8 3).n + 1] ∧
     sendIndices "aux" (run (OpenBCIThread_init 8 3)
        (_START_BYTE :: (List.replicate 31 5 ++ [7]))).2 = [(OpenBCIThread_init 8 3).n + 1] ∧
     (run (OpenBCIThread_init 8 3)
        (_START_BYTE :: (List.replicate 31 5 ++ [7]))).1.n = (OpenBCIThread_init 8 3).n + 1 ∧
     hasCrash (run (OpenBCIThread_init 8 3)
        (_START_BYTE :: (List.replicate 31 5 ++ [7]))).2 = false) :=
  ⟨⟨by decide, by decide⟩,
   c5_corrupt_frame_zeroed (OpenBCIThread_init 8 3) (List.replicate 31 5) 7
     (by decide) (by decide) (by decide) (by decide)⟩

/-- C6 counterexample: _configure accepts a packet size of 999 for the
8-channel/3-aux configuration without any error, although the derived value
is 33 — a mismatch is silently tolerated, not a configuration failure. -/
theorem c6_configure_no_validation_counterexample :
    configOk (OpenBCI_configure "Daisy" "/dev/ttyUSB0" 115200 8 3 250 999) = true ∧
    (999 : Nat) ≠ 3 + 8 * 3 + 3 * 2 := by
  constructor
  · rfl
  · decide

/-- C6 amended: _configure performs no validation and always succeeds,
storing the supplied packet size verbatim; the acquisition thread ignores
the stored value and derives its own packet size 3 + 3*nb_channel +
2*nb_aux from the channel/aux counts, so a mismatched supplied value never
affects runtime framing. -/
theorem c6_configure_stores_without_validation (bn dh : String) (db nc na pb : Nat)
    (sr : Rat) :
    OpenBCI_configure bn dh db nc na sr pb
      = Except.ok { board_name := bn, device_handle := dh, device_baud := db,
                    packet_bsize := pb, nb_channel := nc, nb_aux := na, sample_rate := sr,
                    chan_spec_shape := (-1, (nc : Int)), chan_spec_nb_channel := nc,
                    aux_spec_shape := (-1, (na : Int)), aux_spec_nb_channel := na } ∧
    (OpenBCIThread_init nc na).packet_bsize = 3 + nc * 3 + na * 2 :=
  ⟨rfl, rfl⟩

/-- C7 counterexample: after the START byte the loop reads packet_bsize - 2
= 31 body bytes, not bodySize = 3 + 3*8 + 2*3 = 33 of them; a full frame
(START, 31 body bytes, END) is 33 bytes and is consumed as one cycle. -/
theorem c7_body_read_length_counterexample :
    readBodyLen (OpenBCIThread_init 8 3) = 31 ∧
    (OpenBCIThread_init 8 3).packet_bsize = 3 + 8 * 3 + 3 * 2 ∧
    readBodyLen (OpenBCIThread_init 8 3) ≠ 3 + 8 * 3 + 3 * 2 ∧
    (run (OpenBCIThread_init 8 3)
      (_START_BYTE :: (List.replicate 31 0 ++ [_END_BYTE]))).1.n = 1 := by
  refine ⟨by decide, by decide, by decide, ?_⟩
  obtain ⟨chan, aux, hd, heq⟩ := run_cycle_valid (OpenBCIThread_init 8 3)
    (List.replicate 31 0) [] rfl rfl rfl (by decide)
  rw [heq, run_nil]
  rfl

/-- C7 amended: after consuming the START byte the loop reads exactly
packet_bsize - 2 bytes as the frame body (the packet size minus the two
sentinel bytes) and then exactly 1 further byte as the END candidate; on
the valid path decode is invoked on exactly that body, and the loop
continues on the remaining stream. -/
theorem c7_frame_cycle_reads (st : ThreadState) (body : List Nat) (lastByte : Nat)
    (s : List Nat) (h8 : st.nb_channel = 8) (h3 : st.nb_aux = 3)
    (hp : st.packet_bsize = 33) (hlen : body.length = st.packet_bsize - 2) :
    ∃ stNext evCycle,
      run st (_START_BYTE :: (body ++ lastByte :: s))
        = ((run stNext s).1, evCycle ++ (run stNext s).2) ∧
      stNext.n = st.n + 1 ∧
      (lastByte = _END_BYTE →
        decode { st with count_lost_bytes := 0 } body
          = some (stNext.chan_values, stNext.aux_values)) ∧
      (lastByte ≠ _END_BYTE →
        stNext.chan_values = zeroRow st.chan_values ∧
        stNext.aux_values = zeroRow st.aux_values) := by
  have hlen31 : body.length = 31 := by omega
  by_cases hl : lastByte = _END_BYTE
  · subst hl
    obtain ⟨chan, aux, hd, heq⟩ := run_cycle_valid st body s h8 h3 hp hlen31
    refine ⟨{ st with n := st.n + 1, chan_values := chan, aux_values := aux, count_lost_bytes := 0 }, Event.flagCheck :: ((if st.count_lost_bytes ≠ 0 then [Event.logLost st.count_lost_bytes] else []) ++ [Event.send "chan" (st.n + 1) chan, Event.send "aux" (st.n + 1) aux]), ?_, rfl, fun _ => hd, fun hne => absurd rfl hne⟩
    rw [heq]
    simp [List.append_assoc]
  · refine ⟨{ st with n := st.n + 1, chan_values := zeroRow st.chan_values, aux_values := zeroRow st.aux_values, count_lost_bytes := 0 }, Event.flagCheck :: ((if st.count_lost_bytes ≠ 0 then [Event.logLost st.count_lost_bytes] else []) ++ [Event.logWrongPacket] ++ [Event.send "chan" (st.n + 1) (zeroRow st.chan_values), Event.send "aux" (st.n + 1) (zeroRow st.aux_values)]), ?_, rfl, fun he => absurd he hl, fun _ => ⟨rfl, rfl⟩⟩
    rw [run_cycle_corrupt st body lastByte s hl (by simp [readBodyLen, hp, hlen31])]
    simp [List.append_assoc]

/-- C7 amended witness: the amended theorem applied to a single concrete
valid frame. -/
theorem c7_frame_cycle_reads_witness :
    ((OpenBCIThread_init 8 3).nb_channel = 8 ∧
     (List.replicate 31 (0:Nat)).length = (OpenBCIThread_init 8 3).packet_bsize - 2) ∧
    (∃ stNext evCycle,
      run (OpenBCIThread_init 8 3) (_START_BYTE :: (List.replicate 31 0 ++ 0xC0 :: []))
        = ((run stNext []).1, evCycle ++ (run stNext []).2) ∧
      stNext.n = (OpenBCIThread_init 8 3).n + 1 ∧
      ((0xC0 : Nat) = _END_BYTE →
        decode { OpenBCIThread_init 8 3 with count_lost_bytes := 0 } (List.replicate 31 0)
          = some (stNext.chan_values, stNext.aux_values)) ∧
      ((0xC0 : Nat) ≠ _END_BYTE →
        stNext.chan_values = zeroRow (OpenBCIThread_init 8 3).chan_values ∧
        stNext.aux_values = zeroRow (OpenBCIThread_init 8 3).aux_values)) :=
  ⟨⟨rfl, by decide⟩,
   c7_frame_cycle_reads (OpenBCIThread_init 8 3) (List.replicate 31 0) 0xC0 []
     rfl rfl rfl (by decide)⟩

/-- C8: for a byte sequence of exactly k non-START bytes followed by a
START byte, count_lost_bytes reaches exactly k while seeking; on reading
the START byte it is reported (exactly the single diagnostic value k, and
only when k is nonzero, matching the source's `if count != 0` guard) and
reset to 0, and the worker does not crash. -/
theorem c8_framing_loss_counting (junk : List Nat) (hj : ∀ b ∈ junk, b ≠ _START_BYTE) :
    (run (OpenBCIThread_init 8 3) junk).1.count_lost_bytes = junk.length ∧
    (run (OpenBCIThread_init 8 3) (junk ++ [_START_BYTE])).1.count_lost_bytes = 0 ∧
    lostLogs (run (OpenBCIThread_init 8 3) (junk ++ [_START_BYTE])).2
      = (if junk.length = 0 then [] else [junk.length]) ∧
    hasCrash (run (OpenBCIThread_init 8 3) (junk ++ [_START_BYTE])).2 = false := by
  have e0 : run (OpenBCIThread_init 8 3) junk
      = run (OpenBCIThread_init 8 3) (junk ++ []) := by rw [List.append_nil]
  refine ⟨?_, ?_, ?_, ?_⟩
  · rw [e0, run_junk _ _ _ hj, run_nil]
    simp [OpenBCIThread_init]
  · rw [run_junk _ _ _ hj, run_start_blocked _ _ (by simp)]
  · rw [run_junk _ _ _ hj, run_start_blocked _ _ (by simp)]
    by_cases hz : junk.length = 0 <;> simp [hz, OpenBCIThread_init]
  · rw [run_junk _ _ _ hj, run_start_blocked _ _ (by simp)]
    simp

/-- C8 witness: the theorem applied to three concrete non-START bytes. -/
theorem c8_framing_loss_counting_witness :
    (∀ b ∈ [1, 2, 250], b ≠ _START_BYTE) ∧
    ((run (OpenBCIThread_init 8 3) [1, 2, 250]).1.count_lost_bytes
        = ([1, 2, 250] : List Nat).length ∧
     (run (OpenBCIThread_init 8 3) ([1, 2, 250] ++ [_START_BYTE])).1.count_lost_bytes = 0 ∧
     lostLogs (run (OpenBCIThread_init 8 3) ([1, 2, 250] ++ [_START_BYTE])).2
        = (if ([1, 2, 250] : List Nat).length = 0 then []
           else [([1, 2, 250] : List Nat).length]) ∧
     hasCrash (run (OpenBCIThread_init 8 3) ([1, 2, 250] ++ [_START_BYTE])).2 = false) :=
  ⟨by decide, c8_framing_loss_counting [1, 2, 250] (by decide)⟩

/-- C9 counterexample: in a run with one junk byte followed by one full
valid frame there is exactly one frame cycle and one emitted sample pair,
but the running flag is checked twice, once per byte consumed while
seeking plus once for the frame — not exactly once per frame cycle. -/
theorem c9_flag_check_counterexample :
    numFlagChecks (run (OpenBCIThread_init 8 3)
        (0x00 :: (_START_BYTE :: (List.replicate 31 0 ++ [_END_BYTE])))).2 = 2 ∧
    sendIndices "chan" (run (OpenBCIThread_init 8 3)
        (0x00 :: (_START_BYTE :: (List.replicate 31 0 ++ [_END_BYTE])))).2 = [1] ∧
    (2 : Nat) ≠ 1 := by
  have e0 : (0x00 :: (_START_BYTE :: (List.replicate 31 0 ++ [_END_BYTE])) : List Nat)
      = [0x00] ++ (_START_BYTE :: (List.replicate 31 0 ++ [_END_BYTE])) := rfl
  rw [e0, run_junk _ _ _ (by decide)]
  obtain ⟨chan, aux, hd, heq⟩ := run_cycle_valid
    { OpenBCIThread_init 8 3 with
        count_lost_bytes := (OpenBCIThread_init 8 3).count_lost_bytes + ([0x00] : List Nat).length }
    (List.replicate 31 0) [] rfl rfl rfl (by decide)
  rw [heq, run_nil]
  refine ⟨by simp, by simp [OpenBCIThread_init], by decide⟩

/-- C9 amended: the loop checks the running flag exactly once per outer
iteration under the mutex — that is once per byte consumed while seeking
plus once per frame cycle, so a cycle preceded by k junk bytes performs
k + 1 checks, not 1. -/
theorem c9_flag_check_per_iteration (junk : List Nat) (body : List Nat) (lastByte : Nat)
    (hj : ∀ b ∈ junk, b ≠ _START_BYTE) (hbody : body.length = 31) :
    numFlagChecks (run (OpenBCIThread_init 8 3)
        (junk ++ (_START_BYTE :: (body ++ [lastByte])))).2 = junk.length + 1 ∧
    sendIndices "chan" (run (OpenBCIThread_init 8 3)
        (junk ++ (_START_BYTE :: (body ++ [lastByte])))).2 = [1] := by
  rw [run_junk _ _ _ hj]
  by_cases hl : lastByte = _END_BYTE
  · subst hl
    obtain ⟨chan, aux, hd, heq⟩ := run_cycle_valid
      { OpenBCIThread_init 8 3 with
          count_lost_bytes := (OpenBCIThread_init 8 3).count_lost_bytes + junk.length }
      body [] rfl rfl rfl hbody
    rw [heq, run_nil]
    constructor
    · simp
    · simp [OpenBCIThread_init]
  · rw [run_cycle_corrupt
      { OpenBCIThread_init 8 3 with
          count_lost_bytes := (OpenBCIThread_init 8 3).count_lost_bytes + junk.length }
      body lastByte [] hl (by simpa [readBodyLen, OpenBCIThread_init] using hbody), run_nil]
    constructor
    · simp
    · simp [OpenBCIThread_init]

/-- C9 amended witness: one junk byte and one valid frame give 2 checks. -/
theorem c9_flag_check_per_iteration_witness :
    ((∀ b ∈ [9], b ≠ _START_BYTE) ∧ (List.replicate 31 (0:Nat)).length = 31) ∧
    (numFlagChecks (run (OpenBCIThread_init 8 3)
        ([9] ++ (_START_BYTE :: (List.replicate 31 0 ++ [0xC0])))).2
        = ([9] : List Nat).length + 1 ∧
     sendIndices "chan" (run (OpenBCIThread_init 8 3)
        ([9] ++ (_START_BYTE :: (List.replicate 31 0 ++ [0xC0])))).2 = [1]) :=
  ⟨⟨by decide, by decide⟩,
   c9_flag_check_per_iteration [9] (List.replicate 31 0) 0xC0 (by decide) (by decide)⟩

/-- C10: for the default 8-channel/3-aux configuration, the (port, row)
payloads emitted in one frame cycle depend only on that cycle's frame
bytes: two cycles over the same frame bytes started from states with
different histories (different sample counters, lost-byte counters and row
buffer contents) emit identical values, because decode and the zeroing
path each overwrite every element of both reused row buffers. -/
theorem c10_cycle_output_history_independent
    (st st' : ThreadState) (body : List Nat) (lastByte : Nat)
    (h8 : st.nb_channel = 8) (h8' : st'.nb_channel = 8)
    (h3 : st.nb_aux = 3) (h3' : st'.nb_aux = 3)
    (hp : st.packet_bsize = 33) (hp' : st'.packet_bsize = 33)
    (hcl : st.chan_values.length = 8) (hcl' : st'.chan_values.length = 8)
    (hal : st.aux_values.length = 3) (hal' : st'.aux_values.length = 3)
    (hlen : body.length = 31) :
    sendRows (run st (_START_BYTE :: (body ++ [lastByte]))).2
      = sendRows (run st' (_START_BYTE :: (body ++ [lastByte]))).2 := by
  by_cases hl : lastByte = _END_BYTE
  · subst hl
    obtain ⟨chan, aux, hd, heq⟩ := run_cycle_valid st body [] h8 h3 hp hlen
    obtain ⟨chan', aux', hd', heq'⟩ := run_cycle_valid st' body [] h8' h3' hp' hlen
    have hdec : decode { st with count_lost_bytes := 0 } body
        = decode { st' with count_lost_bytes := 0 } body := by
      apply decode_buffers_irrelevant
      · simp [h8, h8']
      · simp [h3, h3']
      · simp [hcl, h8]
      · simp [hcl', h8']
      · simp [hal, h3]
      · simp [hal', h3']
    have hpair := Option.some.inj ((hd.symm.trans hdec).trans hd')
    injection hpair with hc ha
    rw [heq, heq', run_nil, run_nil]
    simp [hc, ha]
  · rw [run_cycle_corrupt st body lastByte [] hl (by simp [readBodyLen, hp, hlen]),
      run_cycle_corrupt st' body lastByte [] hl (by simp [readBodyLen, hp', hlen]),
      run_nil, run_nil]
    simp [zeroRow_eq_replicate, hcl, hcl', hal, hal']

/-- C10 witness: the theorem applied to two states with different sample
counters, lost-byte counters and buffer contents, over the same valid
frame. -/
theorem c10_cycle_output_history_independent_witness :
    ((OpenBCIThread_init 8 3).nb_channel = 8 ∧
     ({ OpenBCIThread_init 8 3 with n := 5, count_lost_bytes := 2, chan_values := List.replicate 8 7, aux_values := List.replicate 3 9 } : ThreadState).nb_channel = 8 ∧
     (List.replicate 31 (0:Nat)).length = 31) ∧
    sendRows (run (OpenBCIThread_init 8 3)
        (_START_BYTE :: (List.replicate 31 0 ++ [0xC0]))).2
      = sendRows (run ({ OpenBCIThread_init 8 3 with n := 5, count_lost_bytes := 2, chan_values := List.replicate 8 7, aux_values := List.replicate 3 9 } : ThreadState)
        (_START_BYTE :: (List.replicate 31 0 ++ [0xC0]))).2 :=
  ⟨⟨rfl, rfl, by decide⟩,
   c10_cycle_output_history_independent (OpenBCIThread_init 8 3)
     { OpenBCIThread_init 8 3 with n := 5, count_lost_bytes := 2, chan_values := List.replicate 8 7, aux_values := List.replicate 3 9 }
     (List.replicate 31 0) 0xC0 rfl rfl rfl rfl rfl rfl (by decide) (by decide)
     (by decide) (by decide) (by decide)⟩

end PyacqOpenBCI
